import Mathlib

/-!
# The per-game session engine of gahoot (`game/game.go`)

A shallow embedding of the state record, the phase functions (`StateFunc`
values) and the driver loop `Game.Run`, followed by theorems about them.

Conventions of the embedding:

* Go `int` and `time.Duration` values are `Int`.  The only arithmetic the
  engine performs on them is `CurrentQuestion + 1`, evaluated after the slice
  access `Questions[CurrentQuestion]` succeeded, hence below `len(Questions)`.
* A `StateFunc` value is `Option Phase`: `none` is the nil function value and
  `some p` is the method value `game.p` for one of the six methods of the file.
* A run-time panic (slice index out of range, call of a nil function value) is
  the result `none` of a phase evaluation.
* The channels `Action`, `Request`, `ctx.Done()` are the sequence of events
  the `select` statement of the driver receives; the sends on `reaper`, on the
  reply channels and the dispatched `SendMessage` calls are output traces.
-/

namespace quiz

/-- Modelled from the spec: the declaration of `quiz.Question` (package `quiz`
is not part of the sources at hand).  The spec lists a prompt, the choices, a
correct-answer key and a per-question duration. -/
structure Question where
  prompt : String
  choices : List String
  correct : Nat
  duration : Int
deriving DecidableEq, Repr

/-- Modelled from the spec: the declaration of `quiz.Quiz`, an ordered
sequence of questions; the engine reads `game.Questions` through the embedded
field. -/
structure Quiz where
  Questions : List Question
deriving DecidableEq, Repr

end quiz

namespace game

/-! ## Data model -/

/-- The type `Status int`. -/
abbrev Status := Int

/-- Game is waiting for the host to connect (`iota` = 0). -/
abbrev GameHostWaiting : Status := 0
/-- Game is waiting for sufficient players. -/
abbrev GameWaiting : Status := 1
/-- Game is currently live. -/
abbrev GameRunning : Status := 2
/-- Game is dead and waiting to be reaped. -/
abbrev GameDead : Status := 3

/-- The type `time.Duration`: a number of nanoseconds. -/
abbrev Duration := Int

/-- The constant `time.Minute`. -/
abbrev Minute : Duration := 60 * 1000000000

/-- The gameplay constant `MaxGameTime = time.Minute * 45`. -/
abbrev MaxGameTime : Duration := Minute * 45

/-- The gameplay constant `MinPlayers`. -/
abbrev MinPlayers : Int := 3

/-- The type `Pin`, declared elsewhere in the package: an identifier. -/
abbrev Pin := Nat

/-- A host connection, declared elsewhere in the package: an object the engine
only hands messages to.  `State.Host` is a pointer to one, `none` being nil. -/
structure Host where
  id : Nat
deriving DecidableEq, Repr

/-- A player connection, declared elsewhere in the package. -/
structure Player where
  id : Nat
deriving DecidableEq, Repr

/-- The six methods of `Game` that are used as `StateFunc` values. -/
inductive Phase where
  | WaitForHost
  | Question
  | AcceptAnswers
  | GameEnding
  | GameTerminate
  | Sustain
deriving DecidableEq, Repr

/-- The type `StateFunc`: `none` is nil, `some p` the method value `game.p`. -/
abbrev StateFunc := Option Phase

/-- The struct `State`. -/
structure State where
  Status : Status
  Host : Option Host
  Players : List Player
  CurrentQuestion : Int
  countdownDone : Bool
  acceptingAnswers : Bool
  wantAnswers : Int
  gotAnswers : Int
deriving DecidableEq, Repr

/-- The context built by `context.WithTimeout(context.Background(), d)`: the
timeout its deadline was armed with. -/
structure Context where
  timeout : Duration
deriving DecidableEq, Repr

/-- The struct `Game`.  The channel fields are represented by the events and
traces of the driver, `cancel` by the flag `Trace.cancelled`. -/
structure Game where
  PIN : Pin
  Quiz : quiz.Quiz
  ctx : Context
  state : State
  sf : StateFunc
deriving DecidableEq, Repr

/-- The zero value of `State`. -/
def State.zero : State :=
  { Status := 0, Host := none, Players := [], CurrentQuestion := 0,
    countdownDone := false, acceptingAnswers := false,
    wantAnswers := 0, gotAnswers := 0 }

/-- The constructor `NewGame`: a zero `maxGameTime` selects `MaxGameTime`, and
the context is armed with the resulting duration. -/
def NewGame (pin : Pin) (quiz : quiz.Quiz) (maxGameTime : Duration) : Game :=
  let maxGameTime := if maxGameTime = 0 then MaxGameTime else maxGameTime
  { PIN := pin, Quiz := quiz, ctx := { timeout := maxGameTime },
    state := State.zero, sf := none }

/-! ## Outbound messages -/

/-- The command kinds used by `Question`; the constants are declared elsewhere
in the package. -/
inductive Command where
  | CommandNewQuestion
  | CommandQuestionCount
deriving DecidableEq, Repr

/-- The receiver of a `SendMessage` call: the host pointer held in the state
(possibly nil) or a player of the players slice. -/
inductive Recipient where
  | host (h : Option Host)
  | player (plr : Player)
deriving DecidableEq, Repr

/-- The two anonymous payload structs built by `Question`. -/
inductive Payload where
  | newQuestion (q : quiz.Question) (index : Int) (total : Int)
  | count (count : Int)
deriving DecidableEq, Repr

/-- One dispatched call `go recipient.SendMessage(cmd, payload)`. -/
structure Message where
  recipient : Recipient
  cmd : Command
  payload : Payload
deriving DecidableEq, Repr

/-- Whether a message was dispatched to the host pointer. -/
def Message.hostBound (m : Message) : Bool :=
  match m.recipient with
  | Recipient.host _ => true
  | Recipient.player _ => false

/-- The slice access `xs[i]` with a Go `int` index: `none` when out of range. -/
def index {α : Type} (xs : List α) (i : Int) : Option α :=
  if i < 0 then none else xs[i.toNat]?

/-! ## Phase functions -/

/-- The effect of calling a state function: the engine afterwards, the
returned `StateFunc` and the messages dispatched, in program order. -/
structure Step where
  game : Game
  next : StateFunc
  sent : List Message
deriving DecidableEq, Repr

/-- The method `WaitForHost`. -/
def Game.WaitForHost (game : Game) : Step :=
  let game := { game with state := { game.state with Status := GameHostWaiting } }
  if game.state.Host ≠ none then
    { game := { game with state := { game.state with Status := GameWaiting } },
      next := some Phase.Sustain, sent := [] }
  else
    { game := game, next := some Phase.WaitForHost, sent := [] }

/-- The method `Question`; `none` is the index-out-of-range panic of
`game.Questions[game.state.CurrentQuestion]`. -/
def Game.Question (game : Game) : Option Step :=
  if game.state.countdownDone then
    some
      { game := { game with state :=
          { game.state with
            acceptingAnswers := true
            gotAnswers := 0
            wantAnswers := (game.state.Players.length : Int) } },
        next := some Phase.AcceptAnswers, sent := [] }
  else
    match index game.Quiz.Questions game.state.CurrentQuestion with
    | none => none
    | some qn =>
      let q := Payload.newQuestion qn (game.state.CurrentQuestion + 1)
        (game.Quiz.Questions.length : Int)
      some
        { game := game, next := game.sf,
          sent := Message.mk (Recipient.host game.state.Host) Command.CommandNewQuestion q ::
            game.state.Players.map
              (fun plr => Message.mk (Recipient.player plr) Command.CommandQuestionCount
                (Payload.count 10)) }

/-- The method `AcceptAnswers`. -/
def Game.AcceptAnswers (game : Game) : Step :=
  let game := { game with state := { game.state with acceptingAnswers := true } }
  if game.state.gotAnswers ≥ game.state.wantAnswers then
    { game := { game with state := { game.state with acceptingAnswers := false } },
      next := some Phase.Sustain, sent := [] }
  else
    { game := game, next := some Phase.AcceptAnswers, sent := [] }

/-- The method `GameEnding`. -/
def Game.GameEnding (game : Game) : Step :=
  { game := game, next := none, sent := [] }

/-- The method `GameTerminate`. -/
def Game.GameTerminate (game : Game) : Step :=
  { game := game, next := none, sent := [] }

/-- The method `Sustain`. -/
def Game.Sustain (game : Game) : Step :=
  { game := game, next := game.sf, sent := [] }

/-- Calling the method value `game.p`. -/
def Game.call (game : Game) : Phase → Option Step
  | Phase.WaitForHost => some game.WaitForHost
  | Phase.Question => game.Question
  | Phase.AcceptAnswers => some game.AcceptAnswers
  | Phase.GameEnding => some game.GameEnding
  | Phase.GameTerminate => some game.GameTerminate
  | Phase.Sustain => some game.Sustain

/-! ## The driver -/

/-- The interface `Action`, declared elsewhere in the package: an object with
the method `Perform(game *Game)`, free to rewrite the engine. -/
structure Action where
  Perform : Game → Game

/-- What one `select` of the driver receives: the deadline (`ctx.Done()`), an
action from the `Action` channel, or a reply channel from `Request`. -/
inductive Event where
  | deadline
  | action (act : Action)
  | request (req : Nat)

/-- The outputs of a run: the pins sent on `reaper`, the state copies sent on
reply channels, the messages dispatched, and whether `cancel` was called. -/
structure Trace where
  reaped : List Pin
  replies : List (Nat × State)
  sent : List Message
  cancelled : Bool
deriving DecidableEq, Repr

/-- The trace of a run that has not produced anything yet. -/
def Trace.empty : Trace :=
  { reaped := [], replies := [], sent := [], cancelled := false }

/-- How a run over a finite event sequence stands: `Run` returned, `Run` was
left by a panic, or the driver is blocked in `select` with no event left. -/
inductive Outcome where
  | returned
  | panicked
  | blocked
deriving DecidableEq, Repr

/-- The result of running the driver over an event sequence. -/
structure Exit where
  game : Game
  outcome : Outcome
  trace : Trace
  rest : List Event

/-- The deferred function of `Run`: mark the state dead, send the PIN on the
reaper channel, cancel the context.  It runs on return and on panic. -/
def Game.finish (game : Game) (outcome : Outcome) (tr : Trace) (rest : List Event) : Exit :=
  { game := { game with state := { game.state with Status := GameDead } },
    outcome := outcome,
    trace := { tr with reaped := tr.reaped ++ [game.PIN], cancelled := true },
    rest := rest }

/-- The `select` statement of the loop body on one event: `none` is the
`return` of the deadline case. -/
def Game.select (game : Game) (tr : Trace) : Event → Option (Game × Trace)
  | Event.deadline => none
  | Event.action act => some (act.Perform game, tr)
  | Event.request req =>
    some (game, { tr with replies := tr.replies ++ [(req, game.state)] })

/-- The right-hand side of the post statement `game.sf = game.sf()`: `none` is
a panic, either inside the phase or by calling a nil function value. -/
def Game.post (game : Game) : Option Step :=
  match game.sf with
  | none => none
  | some p => game.call p

/-- The loop of `Run` from its condition `game.sf != nil` on, over the events
the environment offers. -/
def Game.loop : List Event → Game → Trace → Exit
  | [], game, tr =>
    if game.sf = none then game.finish Outcome.returned tr []
    else { game := game, outcome := Outcome.blocked, trace := tr, rest := [] }
  | ev :: rest, game, tr =>
    if game.sf = none then game.finish Outcome.returned tr (ev :: rest)
    else
      match game.select tr ev with
      | none => game.finish Outcome.returned tr rest
      | some (g1, tr1) =>
        match g1.post with
        | none => g1.finish Outcome.panicked tr1 rest
        | some st =>
          Game.loop rest { st.game with sf := st.next }
            { tr1 with sent := tr1.sent ++ st.sent }

/-- The method `Run`: the loop starts with `game.sf = game.WaitForHost`. -/
def Game.Run (game : Game) (evs : List Event) : Exit :=
  Game.loop evs { game with sf := some Phase.WaitForHost } Trace.empty

/-! ## Sample inputs -/

/-- A quiz of two questions with durations 30 and 20. -/
def sampleQuiz : quiz.Quiz :=
  { Questions :=
      [ { prompt := "capital of France", choices := ["Paris", "Rome"], correct := 0, duration := 30 },
        { prompt := "two plus two", choices := ["3", "4"], correct := 1, duration := 20 } ] }

/-- An engine in its round: host 7 attached, players 1, 2, 3, second question
current, phase `Question`, stale counters from the round before. -/
def sampleGame : Game :=
  { PIN := 4242, Quiz := sampleQuiz, ctx := { timeout := MaxGameTime },
    state :=
      { Status := GameRunning, Host := some { id := 7 },
        Players := [{ id := 1 }, { id := 2 }, { id := 3 }],
        CurrentQuestion := 1, countdownDone := false, acceptingAnswers := false,
        wantAnswers := 5, gotAnswers := 2 },
    sf := some Phase.Question }

/-- The sample engine once the countdown-complete flag has been set. -/
def sampleCountdownDone : Game :=
  { sampleGame with state := { sampleGame.state with countdownDone := true } }

/-- The sample engine with the current question index past the end of the quiz. -/
def sampleOutOfRange : Game :=
  { sampleGame with state := { sampleGame.state with CurrentQuestion := 2 } }

/-- A sample action: attach the host `h`. -/
def attachHost (h : Host) : Action :=
  { Perform := fun game => { game with state := { game.state with Host := some h } } }

/-- A sample action: store the state function `f` in `game.sf`. -/
def routeTo (f : StateFunc) : Action :=
  { Perform := fun game => { game with sf := f } }

/-- A sample action: a player joins. -/
def joinPlayer (plr : Player) : Action :=
  { Perform := fun game =>
      { game with state := { game.state with Players := game.state.Players ++ [plr] } } }

/-- A sample action: the countdown of the current question is complete. -/
def finishCountdown : Action :=
  { Perform := fun game => { game with state := { game.state with countdownDone := true } } }

/-- A sample action: the host goes away. -/
def detachHost : Action :=
  { Perform := fun game => { game with state := { game.state with Host := none } } }

/-- A sample action: rewrite the players sequence with `f`. -/
def changePlayers (f : List Player → List Player) : Action :=
  { Perform := fun game =>
      { game with state := { game.state with Players := f game.state.Players } } }

/-- A sample action: one whose precondition is unmet, a no-op. -/
def noop : Action :=
  { Perform := fun game => game }

/-- The sample engine with the countdown complete while nobody has joined. -/
def sampleNoPlayers : Game :=
  { sampleCountdownDone with state := { sampleCountdownDone.state with Players := [] } }

/-- A freshly constructed engine for the sample quiz, default lifetime. -/
def sampleNew : Game := NewGame 4242 sampleQuiz 0

/-! ## Phase functions: contracts -/

/-- C1: with `countdownDone` set, `Question` does not panic, sets
`acceptingAnswers`, resets `gotAnswers` to 0, sets `wantAnswers` to the number
of players in the players sequence (which it leaves as it is), returns
`AcceptAnswers` and dispatches no message. -/
theorem Question_countdownDone_snapshot (game : Game)
    (h : game.state.countdownDone = true) :
    ∃ st, game.Question = some st ∧
      st.game.state.acceptingAnswers = true ∧
      st.game.state.gotAnswers = 0 ∧
      st.game.state.wantAnswers = (game.state.Players.length : Int) ∧
      st.game.state.Players = game.state.Players ∧
      st.next = some Phase.AcceptAnswers ∧
      st.sent = [] := by
  simp [Game.Question, h]

/-- Witness of C1 on the sample engine with three players. -/
theorem Question_countdownDone_snapshot_witness :
    sampleCountdownDone.state.countdownDone = true ∧
    ∃ st, sampleCountdownDone.Question = some st ∧
      st.game.state.acceptingAnswers = true ∧
      st.game.state.gotAnswers = 0 ∧
      st.game.state.wantAnswers = ((sampleCountdownDone.state.Players.length : Nat) : Int) ∧
      st.game.state.Players = sampleCountdownDone.state.Players ∧
      st.next = some Phase.AcceptAnswers ∧
      st.sent = [] :=
  ⟨rfl, Question_countdownDone_snapshot sampleCountdownDone rfl⟩

/-- C2: `AcceptAnswers` returns `Sustain` with `acceptingAnswers = false` when
`gotAnswers >= wantAnswers`, otherwise `AcceptAnswers` with
`acceptingAnswers = true`; both counters are unchanged and nothing is sent. -/
theorem AcceptAnswers_contract (game : Game) :
    game.AcceptAnswers.next =
      (if game.state.gotAnswers ≥ game.state.wantAnswers then some Phase.Sustain
       else some Phase.AcceptAnswers) ∧
    game.AcceptAnswers.game.state.acceptingAnswers =
      (if game.state.gotAnswers ≥ game.state.wantAnswers then false else true) ∧
    game.AcceptAnswers.game.state.gotAnswers = game.state.gotAnswers ∧
    game.AcceptAnswers.game.state.wantAnswers = game.state.wantAnswers ∧
    game.AcceptAnswers.sent = [] := by
  unfold Game.AcceptAnswers
  by_cases h : game.state.gotAnswers ≥ game.state.wantAnswers <;> simp [h]

/-- C3: `WaitForHost` returns `Sustain` with status `Waiting` when a host is
attached and `WaitForHost` with status `HostWaiting` when none is; the engine
afterwards differs from the engine before in the status field only. -/
theorem WaitForHost_contract (game : Game) :
    game.WaitForHost.next =
      (if game.state.Host ≠ none then some Phase.Sustain else some Phase.WaitForHost) ∧
    game.WaitForHost.game.state.Status =
      (if game.state.Host ≠ none then GameWaiting else GameHostWaiting) ∧
    game.WaitForHost.game =
      { game with state :=
          { game.state with Status := game.WaitForHost.game.state.Status } } ∧
    game.WaitForHost.sent = [] := by
  unfold Game.WaitForHost
  by_cases h : game.state.Host = none <;> simp [h]

/-! ## The driver: general lemmas -/

theorem call_PIN (game : Game) (p : Phase) (st : Step) (h : game.call p = some st) :
    st.game.PIN = game.PIN := by
  cases p <;> simp only [Game.call, Option.some.injEq] at h
  · subst h; unfold Game.WaitForHost; dsimp only; split <;> rfl
  · unfold Game.Question at h
    split at h
    · simp only [Option.some.injEq] at h; subst h; rfl
    · split at h
      · exact absurd h (by simp)
      · simp only [Option.some.injEq] at h; subst h; rfl
  · subst h; unfold Game.AcceptAnswers; dsimp only; split <;> rfl
  · subst h; rfl
  · subst h; rfl
  · subst h; rfl

theorem post_PIN (game : Game) (st : Step) (h : game.post = some st) :
    st.game.PIN = game.PIN := by
  unfold Game.post at h
  split at h
  · exact absurd h (by simp)
  · exact call_PIN game _ st h

/-- Whenever the driver has left the loop, by return or by panic, the deferred
function has run: the status is dead, the context is cancelled, and the pin
of the engine at that moment was appended to the reaper trace. -/
theorem loop_left (evs : List Event) :
    ∀ (game : Game) (tr : Trace), (Game.loop evs game tr).outcome ≠ Outcome.blocked →
      (Game.loop evs game tr).game.state.Status = GameDead ∧
      (Game.loop evs game tr).trace.reaped = tr.reaped ++ [(Game.loop evs game tr).game.PIN] ∧
      (Game.loop evs game tr).trace.cancelled = true := by
  induction evs with
  | nil =>
    intro game tr h
    unfold Game.loop at h ⊢
    split
    · exact ⟨rfl, rfl, rfl⟩
    · rename_i hsf; simp [hsf] at h
  | cons ev rest ih =>
    intro game tr h
    unfold Game.loop at h ⊢
    split
    · exact ⟨rfl, rfl, rfl⟩
    · rename_i hsf
      simp only [hsf, if_false] at h
      split
      · exact ⟨rfl, rfl, rfl⟩
      · rename_i g1 tr1 hsel
        simp only [hsel] at h
        have htr : tr1.reaped = tr.reaped := by
          cases ev <;> simp [Game.select] at hsel
          · rw [← hsel.2]
          · rw [← hsel.2]
        split
        · rw [← htr]; exact ⟨rfl, rfl, rfl⟩
        · rename_i st hpost
          simp only [hpost] at h
          have := ih _ _ h
          rw [← htr]
          exact this

/-- Actions that keep the PIN field keep it along the whole run of the loop. -/
theorem loop_PIN (evs : List Event) :
    ∀ (game : Game) (tr : Trace),
      (∀ act, Event.action act ∈ evs → ∀ g : Game, (act.Perform g).PIN = g.PIN) →
      (Game.loop evs game tr).game.PIN = game.PIN := by
  induction evs with
  | nil =>
    intro game tr _
    unfold Game.loop
    split <;> rfl
  | cons ev rest ih =>
    intro game tr hact
    unfold Game.loop
    split
    · rfl
    · split
      · rfl
      · rename_i g1 tr1 hsel
        have hg1 : g1.PIN = game.PIN := by
          cases ev with
          | deadline => simp [Game.select] at hsel
          | action act =>
            simp only [Game.select, Option.some.injEq, Prod.mk.injEq] at hsel
            rw [← hsel.1]
            exact hact act (List.mem_cons_self _ _) game
          | request req =>
            simp only [Game.select, Option.some.injEq, Prod.mk.injEq] at hsel
            rw [← hsel.1]
        split
        · exact hg1
        · rename_i st hpost
          have h1 := ih { st.game with sf := st.next } { tr1 with sent := tr1.sent ++ st.sent }
            (fun act hmem g => hact act (List.mem_cons_of_mem _ hmem) g)
          rw [h1]
          exact (post_PIN g1 st hpost).trans hg1

/-- A blocked driver holds a non-nil state function and has sent nothing to
the reaper. -/
theorem loop_blocked (evs : List Event) :
    ∀ (game : Game) (tr : Trace), (Game.loop evs game tr).outcome = Outcome.blocked →
      (Game.loop evs game tr).game.sf ≠ none ∧
      (Game.loop evs game tr).trace.reaped = tr.reaped ∧
      (Game.loop evs game tr).rest = [] := by
  induction evs with
  | nil =>
    intro game tr h
    unfold Game.loop at h ⊢
    split
    · rename_i hsf; simp [hsf, Game.finish] at h
    · rename_i hsf; exact ⟨hsf, rfl, rfl⟩
  | cons ev rest ih =>
    intro game tr h
    unfold Game.loop at h ⊢
    split
    · rename_i hsf; simp [hsf, Game.finish] at h
    · rename_i hsf
      simp only [hsf, if_false] at h
      split
      · rename_i hsel; simp [hsel, Game.finish] at h
      · rename_i g1 tr1 hsel
        simp only [hsel] at h
        have htr : tr1.reaped = tr.reaped := by
          cases ev <;> simp [Game.select] at hsel
          · rw [← hsel.2]
          · rw [← hsel.2]
        split
        · rename_i hpost; simp [hpost, Game.finish] at h
        · rename_i st hpost
          simp only [hpost] at h
          have := ih _ _ h
          rw [← htr]
          exact this

/-- A driver blocked after the events `pre` continues on further events from
the engine and the trace it is blocked with. -/
theorem loop_append (pre : List Event) :
    ∀ (game : Game) (tr : Trace), (Game.loop pre game tr).outcome = Outcome.blocked →
      ∀ evs, Game.loop (pre ++ evs) game tr =
        Game.loop evs (Game.loop pre game tr).game (Game.loop pre game tr).trace := by
  induction pre with
  | nil =>
    intro game tr h evs
    have hsf : ¬ game.sf = none := by
      intro hsf
      simp [Game.loop, hsf, Game.finish] at h
    simp [Game.loop, hsf]
  | cons ev rest ih =>
    intro game tr h evs
    have hsf : ¬ game.sf = none := by
      intro hsf
      simp [Game.loop, hsf, Game.finish] at h
    rw [List.cons_append]
    unfold Game.loop at h
    simp only [hsf, if_false] at h
    rw [Game.loop.eq_def (ev :: (rest ++ evs)), Game.loop.eq_def (ev :: rest)]
    simp only [hsf, if_false]
    cases hsel : game.select tr ev with
    | none => simp [hsel, Game.finish] at h
    | some gt =>
      obtain ⟨g1, tr1⟩ := gt
      simp only [hsel] at h ⊢
      cases hpost : g1.post with
      | none => simp [hpost, Game.finish] at h
      | some st =>
        simp only [hpost] at h ⊢
        exact ih _ _ h evs

theorem loop_nil_sf (evs : List Event) (game : Game) (tr : Trace) (h : game.sf = none) :
    Game.loop evs game tr = game.finish Outcome.returned tr evs := by
  cases evs <;> simp [Game.loop, h]

/-! ## The driver: contracts -/

/-- C4: on every event sequence on which `Run` returns, the status of the
state record is `GameDead` when it returns. -/
theorem Run_returned_dead (game : Game) (evs : List Event)
    (h : (game.Run evs).outcome = Outcome.returned) :
    (game.Run evs).game.state.Status = GameDead :=
  (loop_left evs _ _ (by unfold Game.Run at h; rw [h]; decide)).1

/-- Witness of C4: a deadline exit after a host attach, and a phase-nil exit
after an action routed the engine to `GameTerminate`. -/
theorem Run_returned_dead_witness :
    ((sampleNew.Run [Event.action (attachHost { id := 7 }), Event.deadline]).outcome
        = Outcome.returned ∧
      (sampleNew.Run [Event.action (attachHost { id := 7 }), Event.deadline]).game.state.Status
        = GameDead) ∧
    ((sampleNew.Run [Event.action (routeTo (some Phase.GameTerminate))]).outcome
        = Outcome.returned ∧
      (sampleNew.Run [Event.action (routeTo (some Phase.GameTerminate))]).game.state.Status
        = GameDead) :=
  ⟨⟨rfl, Run_returned_dead sampleNew _ rfl⟩, ⟨rfl, Run_returned_dead sampleNew _ rfl⟩⟩

/-- C5: on every event sequence on which `Run` returns, the values sent on the
reaper channel over the whole run are exactly one: the PIN field of the
engine; it is the PIN the engine was started with whenever no action of the
sequence rewrites the PIN field. -/
theorem Run_returned_reaps_pin_once (game : Game) (evs : List Event)
    (h : (game.Run evs).outcome = Outcome.returned) :
    (game.Run evs).trace.reaped = [(game.Run evs).game.PIN] ∧
    ((∀ act, Event.action act ∈ evs → ∀ g : Game, (act.Perform g).PIN = g.PIN) →
      (game.Run evs).trace.reaped = [game.PIN]) := by
  have hl := (loop_left evs { game with sf := some Phase.WaitForHost } Trace.empty
    (by unfold Game.Run at h; rw [h]; decide)).2.1
  have h1 : (game.Run evs).trace.reaped = [(game.Run evs).game.PIN] := by
    unfold Game.Run
    rw [hl]
    rfl
  refine ⟨h1, fun hact => ?_⟩
  rw [h1]
  unfold Game.Run
  rw [loop_PIN evs _ _ hact]

/-- Witness of C5: host attach, a read request, then the deadline. -/
theorem Run_returned_reaps_pin_once_witness :
    (sampleNew.Run
        [Event.action (attachHost { id := 7 }), Event.request 3, Event.deadline]).outcome
      = Outcome.returned ∧
    (sampleNew.Run
        [Event.action (attachHost { id := 7 }), Event.request 3, Event.deadline]).trace.reaped
      = [4242] :=
  ⟨rfl,
    (Run_returned_reaps_pin_once sampleNew
      [Event.action (attachHost { id := 7 }), Event.request 3, Event.deadline] rfl).2
      (by
        intro act hmem g
        simp only [List.mem_cons, Event.action.injEq, List.mem_singleton, reduceCtorEq,
          or_false, List.not_mem_nil] at hmem
        subst hmem
        rfl)⟩

/-! ## Construction -/

/-- C6, counterexample: a 90 minute lifetime arms a 90 minute deadline, which
is neither `min(maxLifetime, MaxGameTime)` nor at most 45 minutes. -/
theorem NewGame_deadline_not_clamped :
    (NewGame 4242 sampleQuiz (Minute * 90)).ctx.timeout = Minute * 90 ∧
    (NewGame 4242 sampleQuiz (Minute * 90)).ctx.timeout ≠ min (Minute * 90) MaxGameTime ∧
    ¬ (NewGame 4242 sampleQuiz (Minute * 90)).ctx.timeout ≤ Minute * 45 := by
  decide

/-- C6, amended: the deadline armed by `NewGame` is `maxGameTime` itself when
it is not 0 and `MaxGameTime` (45 minutes) when it is 0; it equals
`min(maxGameTime, MaxGameTime)` exactly when `maxGameTime` is nonzero and at
most `MaxGameTime`, and it is at most 45 minutes exactly when `maxGameTime` is. -/
theorem NewGame_deadline (pin : Pin) (quiz : quiz.Quiz) (maxGameTime : Duration) :
    (NewGame pin quiz maxGameTime).ctx.timeout =
      (if maxGameTime = 0 then MaxGameTime else maxGameTime) ∧
    MaxGameTime = 45 * (60 * 1000000000) ∧
    ((NewGame pin quiz maxGameTime).ctx.timeout = min maxGameTime MaxGameTime ↔
      maxGameTime ≠ 0 ∧ maxGameTime ≤ MaxGameTime) ∧
    ((NewGame pin quiz maxGameTime).ctx.timeout ≤ MaxGameTime ↔
      maxGameTime ≤ MaxGameTime) := by
  have ht : (NewGame pin quiz maxGameTime).ctx.timeout =
      (if maxGameTime = 0 then MaxGameTime else maxGameTime) := rfl
  have hm : MaxGameTime = 45 * (60 * 1000000000) := by decide
  have key : ∀ m : Int,
      ((if m = 0 then (45 * (60 * 1000000000) : Int) else m) = min m (45 * (60 * 1000000000)) ↔
        m ≠ 0 ∧ m ≤ 45 * (60 * 1000000000)) ∧
      ((if m = 0 then (45 * (60 * 1000000000) : Int) else m) ≤ 45 * (60 * 1000000000) ↔
        m ≤ 45 * (60 * 1000000000)) := by
    intro m
    constructor <;> split <;> omega
  refine ⟨ht, hm, ?_, ?_⟩
  · rw [ht, hm]; exact (key maxGameTime).1
  · rw [ht, hm]; exact (key maxGameTime).2

/-! ## The question phase -/

/-- C7: with `countdownDone` unset and the current question index in range,
`Question` dispatches exactly one message to the host, the only
`CommandNewQuestion` message, carrying the question at that index, the index
plus one, and the number of questions. -/
theorem Question_emits_NewQuestion (game : Game)
    (hcd : game.state.countdownDone = false)
    (hlo : 0 ≤ game.state.CurrentQuestion)
    (hhi : game.state.CurrentQuestion < (game.Quiz.Questions.length : Int)) :
    ∃ qn st,
      game.Quiz.Questions[game.state.CurrentQuestion.toNat]? = some qn ∧
      game.Question = some st ∧
      st.sent.filter (fun m => decide (m.cmd = Command.CommandNewQuestion)) =
        [Message.mk (Recipient.host game.state.Host) Command.CommandNewQuestion
          (Payload.newQuestion qn (game.state.CurrentQuestion + 1)
            (game.Quiz.Questions.length : Int))] ∧
      st.sent.filter Message.hostBound =
        [Message.mk (Recipient.host game.state.Host) Command.CommandNewQuestion
          (Payload.newQuestion qn (game.state.CurrentQuestion + 1)
            (game.Quiz.Questions.length : Int))] := by
  have hlt : game.state.CurrentQuestion.toNat < game.Quiz.Questions.length := by omega
  have hq : game.Quiz.Questions[game.state.CurrentQuestion.toNat]? =
      some game.Quiz.Questions[game.state.CurrentQuestion.toNat] :=
    List.getElem?_eq_getElem hlt
  have hQ : game.Question = some
      { game := game, next := game.sf,
        sent := Message.mk (Recipient.host game.state.Host) Command.CommandNewQuestion
            (Payload.newQuestion game.Quiz.Questions[game.state.CurrentQuestion.toNat]
              (game.state.CurrentQuestion + 1) (game.Quiz.Questions.length : Int)) ::
          game.state.Players.map
            (fun plr => Message.mk (Recipient.player plr) Command.CommandQuestionCount
              (Payload.count 10)) } := by
    unfold Game.Question
    simp only [hcd, Bool.false_eq_true, if_false, index, not_lt.mpr hlo, hq]
  refine ⟨_, _, hq, hQ, ?_, ?_⟩
  · simp [List.filter_cons, List.filter_map, Function.comp_def]
  · simp [List.filter_cons, List.filter_map, Function.comp_def, Message.hostBound]

/-- Witness of C7 on the sample engine: second question of two current. -/
theorem Question_emits_NewQuestion_witness :
    sampleGame.state.countdownDone = false ∧
    0 ≤ sampleGame.state.CurrentQuestion ∧
    sampleGame.state.CurrentQuestion < (sampleGame.Quiz.Questions.length : Int) ∧
    ∃ qn st,
      sampleGame.Quiz.Questions[sampleGame.state.CurrentQuestion.toNat]? = some qn ∧
      sampleGame.Question = some st ∧
      st.sent.filter (fun m => decide (m.cmd = Command.CommandNewQuestion)) =
        [Message.mk (Recipient.host sampleGame.state.Host) Command.CommandNewQuestion
          (Payload.newQuestion qn (sampleGame.state.CurrentQuestion + 1)
            (sampleGame.Quiz.Questions.length : Int))] ∧
      st.sent.filter Message.hostBound =
        [Message.mk (Recipient.host sampleGame.state.Host) Command.CommandNewQuestion
          (Payload.newQuestion qn (sampleGame.state.CurrentQuestion + 1)
            (sampleGame.Quiz.Questions.length : Int))] :=
  ⟨rfl, by decide, by decide,
    Question_emits_NewQuestion sampleGame rfl (by decide) (by decide)⟩

/-- C8, counterexample: on the sample engine (three players, current question
of duration 20) the `CommandQuestionCount` messages do not carry the duration
of the current question; and with the question index out of range `Question`
panics before any message is dispatched, although there are three players. -/
theorem Question_count_is_not_duration :
    (sampleGame.state.countdownDone = false ∧
      ¬ ∃ st qn, sampleGame.Question = some st ∧
        index sampleGame.Quiz.Questions sampleGame.state.CurrentQuestion = some qn ∧
        st.sent.filter (fun m => decide (m.cmd = Command.CommandQuestionCount)) =
          sampleGame.state.Players.map
            (fun plr => Message.mk (Recipient.player plr) Command.CommandQuestionCount
              (Payload.count qn.duration))) ∧
    (sampleOutOfRange.state.countdownDone = false ∧
      sampleOutOfRange.state.Players.length = 3 ∧
      sampleOutOfRange.Question = none) := by
  refine ⟨⟨rfl, ?_⟩, rfl, rfl, rfl⟩
  rintro ⟨st, qn, hQ, hq, hs⟩
  have hq2 : index sampleGame.Quiz.Questions sampleGame.state.CurrentQuestion =
      some { prompt := "two plus two", choices := ["3", "4"], correct := 1, duration := 20 } :=
    rfl
  rw [hq2] at hq
  have hqn := Option.some.inj hq
  subst hqn
  have hQ2 : sampleGame.Question = some
      { game := sampleGame, next := sampleGame.sf,
        sent := Message.mk (Recipient.host sampleGame.state.Host) Command.CommandNewQuestion
            (Payload.newQuestion
              { prompt := "two plus two", choices := ["3", "4"], correct := 1, duration := 20 }
              2 2) ::
          sampleGame.state.Players.map
            (fun plr => Message.mk (Recipient.player plr) Command.CommandQuestionCount
              (Payload.count 10)) } := rfl
  rw [hQ2] at hQ
  have hst := Option.some.inj hQ
  subst hst
  simp [sampleGame, List.filter_cons] at hs

/-- C8, amended: with `countdownDone` unset and the current question index in
range, `Question` dispatches exactly one `CommandQuestionCount` message to
each player of the players sequence, in order, these are all the messages to
players, and each carries the constant count 10. -/
theorem Question_emits_QuestionCount (game : Game)
    (hcd : game.state.countdownDone = false)
    (hlo : 0 ≤ game.state.CurrentQuestion)
    (hhi : game.state.CurrentQuestion < (game.Quiz.Questions.length : Int)) :
    ∃ st, game.Question = some st ∧
      st.sent.filter (fun m => decide (m.cmd = Command.CommandQuestionCount)) =
        game.state.Players.map
          (fun plr => Message.mk (Recipient.player plr) Command.CommandQuestionCount
            (Payload.count 10)) ∧
      st.sent.filter (fun m => !m.hostBound) =
        game.state.Players.map
          (fun plr => Message.mk (Recipient.player plr) Command.CommandQuestionCount
            (Payload.count 10)) ∧
      (st.sent.filter (fun m => decide (m.cmd = Command.CommandQuestionCount))).length =
        game.state.Players.length := by
  have hlt : game.state.CurrentQuestion.toNat < game.Quiz.Questions.length := by omega
  have hq : game.Quiz.Questions[game.state.CurrentQuestion.toNat]? =
      some game.Quiz.Questions[game.state.CurrentQuestion.toNat] :=
    List.getElem?_eq_getElem hlt
  have hQ : game.Question = some
      { game := game, next := game.sf,
        sent := Message.mk (Recipient.host game.state.Host) Command.CommandNewQuestion
            (Payload.newQuestion game.Quiz.Questions[game.state.CurrentQuestion.toNat]
              (game.state.CurrentQuestion + 1) (game.Quiz.Questions.length : Int)) ::
          game.state.Players.map
            (fun plr => Message.mk (Recipient.player plr) Command.CommandQuestionCount
              (Payload.count 10)) } := by
    unfold Game.Question
    simp only [hcd, Bool.false_eq_true, if_false, index, not_lt.mpr hlo, hq]
  refine ⟨_, hQ, ?_, ?_, ?_⟩
  · simp [List.filter_cons, List.filter_map, Function.comp_def]
  · simp [List.filter_cons, List.filter_map, Function.comp_def, Message.hostBound]
  · simp [List.filter_cons, List.filter_map, Function.comp_def]

/-- Witness of C8 (amended) on the sample engine with three players. -/
theorem Question_emits_QuestionCount_witness :
    sampleGame.state.countdownDone = false ∧
    0 ≤ sampleGame.state.CurrentQuestion ∧
    sampleGame.state.CurrentQuestion < (sampleGame.Quiz.Questions.length : Int) ∧
    ∃ st, sampleGame.Question = some st ∧
      st.sent.filter (fun m => decide (m.cmd = Command.CommandQuestionCount)) =
        sampleGame.state.Players.map
          (fun plr => Message.mk (Recipient.player plr) Command.CommandQuestionCount
            (Payload.count 10)) ∧
      st.sent.filter (fun m => !m.hostBound) =
        sampleGame.state.Players.map
          (fun plr => Message.mk (Recipient.player plr) Command.CommandQuestionCount
            (Payload.count 10)) ∧
      (st.sent.filter (fun m => decide (m.cmd = Command.CommandQuestionCount))).length =
        sampleGame.state.Players.length :=
  ⟨rfl, by decide, by decide,
    Question_emits_QuestionCount sampleGame rfl (by decide) (by decide)⟩

/-! ## The ending phases -/

/-- No phase called by the driver (the phase being the one stored in
`game.sf`) returns `GameEnding`: it becomes the current phase only when an
action stores it in `game.sf`. -/
theorem call_never_GameEnding (game : Game) (p : Phase) (st : Step)
    (h : Game.call { game with sf := some p } p = some st) :
    st.next ≠ some Phase.GameEnding := by
  cases p <;> simp only [Game.call, Option.some.injEq] at h
  · subst h; unfold Game.WaitForHost; dsimp only; split <;> simp
  · unfold Game.Question at h
    split at h
    · simp only [Option.some.injEq] at h; subst h; simp
    · split at h
      · exact absurd h (by simp)
      · simp only [Option.some.injEq] at h; subst h; simp
  · subst h; unfold Game.AcceptAnswers; dsimp only; split <;> simp
  · subst h; simp [Game.GameEnding]
  · subst h; simp [Game.GameTerminate]
  · subst h; simp [Game.Sustain]

/-- C9, the code at the failing input: a host attaches, an action stores
`GameEnding` in `game.sf`, and one more action (the host being finished) is
offered.  `GameEnding` returns nil, not `GameTerminate`, so the post statement
of the very iteration that stored it ends the loop: `Run` returns with the
last action never received, where the doc comment of `GameEnding` has it
accept one more message; after the first two events alone `Run` has already
returned. -/
theorem GameEnding_accepts_no_message :
    (Game.GameEnding
        (sampleNew.Run [Event.action (attachHost { id := 7 })]).game).next = none ∧
    (Game.GameEnding
        (sampleNew.Run [Event.action (attachHost { id := 7 })]).game).next
      ≠ some Phase.GameTerminate ∧
    (sampleNew.Run [Event.action (attachHost { id := 7 }),
        Event.action (routeTo (some Phase.GameEnding))]).outcome = Outcome.returned ∧
    (sampleNew.Run [Event.action (attachHost { id := 7 }),
        Event.action (routeTo (some Phase.GameEnding)),
        Event.action noop]).outcome = Outcome.returned ∧
    (sampleNew.Run [Event.action (attachHost { id := 7 }),
        Event.action (routeTo (some Phase.GameEnding)),
        Event.action noop]).rest = [Event.action noop] ∧
    (sampleNew.Run [Event.action (attachHost { id := 7 }),
        Event.action (routeTo (some Phase.GameEnding)),
        Event.action noop]).trace.reaped = [4242] :=
  ⟨rfl, by decide, rfl, rfl, rfl, rfl⟩

/-- C10: `GameTerminate` returns nil in every state and leaves the engine as
it is; and when the driver, waiting in its `select` after the events `pre`,
receives an action after which `game.sf` is `GameTerminate`, `Run` returns in
that iteration: the events `rest` behind the action are not consumed, no
further reply is sent, the engine is the one the action left except for the
nil state function and the status `GameDead`, and the reaper received the PIN. -/
theorem GameTerminate_exits (game : Game) (pre rest : List Event) (act : Action)
    (hpre : (game.Run pre).outcome = Outcome.blocked)
    (hact : (act.Perform (game.Run pre).game).sf = some Phase.GameTerminate) :
    (∀ g : Game, g.GameTerminate.next = none ∧ g.GameTerminate.game = g ∧
      g.GameTerminate.sent = []) ∧
    (game.Run (pre ++ Event.action act :: rest)).outcome = Outcome.returned ∧
    (game.Run (pre ++ Event.action act :: rest)).rest = rest ∧
    (game.Run (pre ++ Event.action act :: rest)).game.state.Status = GameDead ∧
    (game.Run (pre ++ Event.action act :: rest)).game =
      { act.Perform (game.Run pre).game with
        sf := none
        state := { (act.Perform (game.Run pre).game).state with Status := GameDead } } ∧
    (game.Run (pre ++ Event.action act :: rest)).trace.reaped =
      [(act.Perform (game.Run pre).game).PIN] ∧
    (game.Run (pre ++ Event.action act :: rest)).trace.replies =
      (game.Run pre).trace.replies ∧
    (game.Run (pre ++ Event.action act :: rest)).trace.sent =
      (game.Run pre).trace.sent := by
  refine ⟨fun g => ⟨rfl, rfl, rfl⟩, ?_⟩
  unfold Game.Run at hpre hact ⊢
  have hb := loop_blocked pre _ _ hpre
  rw [loop_append pre _ _ hpre]
  generalize Game.loop pre { game with sf := some Phase.WaitForHost } Trace.empty = r
    at hact hb
  obtain ⟨hsf, hreap, _⟩ := hb
  have hstep : Game.loop (Event.action act :: rest) r.game r.trace =
      Game.finish { act.Perform r.game with sf := none } Outcome.returned
        { r.trace with sent := r.trace.sent ++ [] } rest := by
    rw [Game.loop.eq_def]
    simp only [hsf, if_false, Game.select, Game.post, hact, Game.call, Game.GameTerminate]
    exact loop_nil_sf _ _ _ rfl
  rw [hstep]
  refine ⟨rfl, rfl, rfl, rfl, ?_, rfl, ?_⟩
  · show r.trace.reaped ++ [(act.Perform r.game).PIN] = [(act.Perform r.game).PIN]
    rw [hreap]
    rfl
  · show r.trace.sent ++ [] = r.trace.sent
    exact List.append_nil _

/-- Witness of C10: host attach and a read request, then an action that
routes to `GameTerminate`, with two more events queued behind it. -/
theorem GameTerminate_exits_witness :
    (sampleNew.Run [Event.action (attachHost { id := 7 }), Event.request 3]).outcome
      = Outcome.blocked ∧
    (sampleNew.Run ([Event.action (attachHost { id := 7 }), Event.request 3] ++
        Event.action (routeTo (some Phase.GameTerminate)) ::
          [Event.request 4, Event.action (joinPlayer { id := 1 })])).outcome
      = Outcome.returned ∧
    (sampleNew.Run ([Event.action (attachHost { id := 7 }), Event.request 3] ++
        Event.action (routeTo (some Phase.GameTerminate)) ::
          [Event.request 4, Event.action (joinPlayer { id := 1 })])).rest
      = [Event.request 4, Event.action (joinPlayer { id := 1 })] ∧
    (sampleNew.Run ([Event.action (attachHost { id := 7 }), Event.request 3] ++
        Event.action (routeTo (some Phase.GameTerminate)) ::
          [Event.request 4, Event.action (joinPlayer { id := 1 })])).trace.reaped
      = [4242] :=
  have h := GameTerminate_exits sampleNew
    [Event.action (attachHost { id := 7 }), Event.request 3]
    [Event.request 4, Event.action (joinPlayer { id := 1 })]
    (routeTo (some Phase.GameTerminate)) rfl rfl
  ⟨rfl, h.2.1, h.2.2.1, h.2.2.2.2.2.1⟩

/-! ## Round counters -/

/-- No phase function gives `gotAnswers` a value other than 0, and
`wantAnswers` is only ever set to a length. -/
theorem call_counters (game : Game) (p : Phase) (st : Step) (h : game.call p = some st)
    (hinv : game.state.gotAnswers = 0 ∧ 0 ≤ game.state.wantAnswers) :
    st.game.state.gotAnswers = 0 ∧ 0 ≤ st.game.state.wantAnswers := by
  cases p <;> simp only [Game.call, Option.some.injEq] at h
  · subst h; unfold Game.WaitForHost; dsimp only; split <;> exact hinv
  · unfold Game.Question at h
    split at h
    · simp only [Option.some.injEq] at h; subst h
      exact ⟨rfl, Int.ofNat_nonneg _⟩
    · split at h
      · exact absurd h (by simp)
      · simp only [Option.some.injEq] at h; subst h; exact hinv
  · subst h; unfold Game.AcceptAnswers; dsimp only; split <;> exact hinv
  · subst h; exact hinv
  · subst h; exact hinv
  · subst h; exact hinv

/-- Along the loop, under actions that leave the round counters alone, the
engine and every snapshot served keep `gotAnswers = 0` and `0 <= wantAnswers`. -/
theorem loop_counters (evs : List Event) :
    ∀ (game : Game) (tr : Trace),
      (∀ act, Event.action act ∈ evs → ∀ g : Game,
        (act.Perform g).state.wantAnswers = g.state.wantAnswers ∧
        (act.Perform g).state.gotAnswers = g.state.gotAnswers) →
      (game.state.gotAnswers = 0 ∧ 0 ≤ game.state.wantAnswers) →
      (∀ rep ∈ tr.replies, rep.2.gotAnswers = 0 ∧ 0 ≤ rep.2.wantAnswers) →
      ((Game.loop evs game tr).game.state.gotAnswers = 0 ∧
        0 ≤ (Game.loop evs game tr).game.state.wantAnswers) ∧
      ∀ rep ∈ (Game.loop evs game tr).trace.replies,
        rep.2.gotAnswers = 0 ∧ 0 ≤ rep.2.wantAnswers := by
  induction evs with
  | nil =>
    intro game tr _ hg ht
    unfold Game.loop
    split
    · exact ⟨hg, ht⟩
    · exact ⟨hg, ht⟩
  | cons ev rest ih =>
    intro game tr hact hg ht
    unfold Game.loop
    split
    · exact ⟨hg, ht⟩
    · split
      · exact ⟨hg, ht⟩
      · rename_i g1 tr1 hsel
        have h1 : (g1.state.gotAnswers = 0 ∧ 0 ≤ g1.state.wantAnswers) ∧
            ∀ rep ∈ tr1.replies, rep.2.gotAnswers = 0 ∧ 0 ≤ rep.2.wantAnswers := by
          cases ev with
          | deadline => simp [Game.select] at hsel
          | action act =>
            simp only [Game.select, Option.some.injEq, Prod.mk.injEq] at hsel
            obtain ⟨hg1, htr1⟩ := hsel
            subst hg1 htr1
            have := hact act (List.mem_cons_self _ _) game
            exact ⟨⟨this.2.trans hg.1, this.1 ▸ hg.2⟩, ht⟩
          | request req =>
            simp only [Game.select, Option.some.injEq, Prod.mk.injEq] at hsel
            obtain ⟨hg1, htr1⟩ := hsel
            subst hg1 htr1
            refine ⟨hg, ?_⟩
            intro rep hrep
            simp only [List.mem_append, List.mem_singleton] at hrep
            rcases hrep with hrep | hrep
            · exact ht rep hrep
            · subst hrep; exact hg
        split
        · exact h1
        · rename_i st hpost
          have hst : st.game.state.gotAnswers = 0 ∧ 0 ≤ st.game.state.wantAnswers := by
            unfold Game.post at hpost
            split at hpost
            · exact absurd hpost (by simp)
            · exact call_counters g1 _ st hpost h1.1
          exact ih { st.game with sf := st.next } { tr1 with sent := tr1.sent ++ st.sent }
            (fun act hmem g => hact act (List.mem_cons_of_mem _ hmem) g) hst h1.2

/-- C11: in the state a run from a freshly constructed engine has reached
(at a loop head or after leaving the loop) and in every snapshot it has
served, whatever phases were evaluated, `acceptingAnswers` implies
`0 <= gotAnswers <= wantAnswers`; the actions of the run may route the phases
and change the rest of the engine but leave the round counters to the phases. -/
theorem answers_invariant (pin : Pin) (quiz : quiz.Quiz) (maxGameTime : Duration)
    (evs : List Event)
    (hact : ∀ act, Event.action act ∈ evs → ∀ g : Game,
      (act.Perform g).state.wantAnswers = g.state.wantAnswers ∧
      (act.Perform g).state.gotAnswers = g.state.gotAnswers) :
    (((NewGame pin quiz maxGameTime).Run evs).game.state.acceptingAnswers = true →
      0 ≤ ((NewGame pin quiz maxGameTime).Run evs).game.state.gotAnswers ∧
      ((NewGame pin quiz maxGameTime).Run evs).game.state.gotAnswers ≤
        ((NewGame pin quiz maxGameTime).Run evs).game.state.wantAnswers) ∧
    ∀ rep ∈ ((NewGame pin quiz maxGameTime).Run evs).trace.replies,
      rep.2.acceptingAnswers = true →
        0 ≤ rep.2.gotAnswers ∧ rep.2.gotAnswers ≤ rep.2.wantAnswers := by
  have h := loop_counters evs { NewGame pin quiz maxGameTime with sf := some Phase.WaitForHost }
    Trace.empty hact ⟨rfl, le_refl _⟩ (by intro rep hrep; simp [Trace.empty] at hrep)
  unfold Game.Run
  refine ⟨fun _ => ?_, fun rep hrep _ => ?_⟩
  · rw [h.1.1]; exact ⟨le_refl _, h.1.2⟩
  · have := h.2 rep hrep
    rw [this.1]; exact ⟨le_refl _, this.2⟩

/-- Witness of C11: a host attaches, a player joins, the engine is routed to
`Question`, the countdown completes and a snapshot is read while answers are
being accepted. -/
theorem answers_invariant_witness :
    ((NewGame 4242 sampleQuiz 0).Run
        [Event.action (attachHost { id := 7 }), Event.action (joinPlayer { id := 1 }),
          Event.action (routeTo (some Phase.Question)), Event.action finishCountdown,
          Event.request 9]).game.state.acceptingAnswers = true ∧
    (0 ≤ ((NewGame 4242 sampleQuiz 0).Run
        [Event.action (attachHost { id := 7 }), Event.action (joinPlayer { id := 1 }),
          Event.action (routeTo (some Phase.Question)), Event.action finishCountdown,
          Event.request 9]).game.state.gotAnswers ∧
      ((NewGame 4242 sampleQuiz 0).Run
        [Event.action (attachHost { id := 7 }), Event.action (joinPlayer { id := 1 }),
          Event.action (routeTo (some Phase.Question)), Event.action finishCountdown,
          Event.request 9]).game.state.gotAnswers ≤
      ((NewGame 4242 sampleQuiz 0).Run
        [Event.action (attachHost { id := 7 }), Event.action (joinPlayer { id := 1 }),
          Event.action (routeTo (some Phase.Question)), Event.action finishCountdown,
          Event.request 9]).game.state.wantAnswers) :=
  ⟨rfl,
    (answers_invariant 4242 sampleQuiz 0
      [Event.action (attachHost { id := 7 }), Event.action (joinPlayer { id := 1 }),
        Event.action (routeTo (some Phase.Question)), Event.action finishCountdown,
        Event.request 9]
      (by
        intro act hmem g
        simp only [List.mem_cons, Event.action.injEq, List.mem_singleton, reduceCtorEq,
          or_false, List.not_mem_nil] at hmem
        rcases hmem with h | h | h | h <;> subst h <;> exact ⟨rfl, rfl⟩)).1 rfl⟩

/-- C12, counterexample: on the sample engine with no players and the
countdown complete, `Question` opens the round with `wantAnswers = 0` and the
following `AcceptAnswers` returns `Sustain`, not `GameEnding`. -/
theorem AcceptAnswers_empty_round_not_GameEnding :
    sampleNoPlayers.state.countdownDone = true ∧
    sampleNoPlayers.state.Players = [] ∧
    ∃ st, sampleNoPlayers.Question = some st ∧
      st.game.state.wantAnswers = 0 ∧
      st.next = some Phase.AcceptAnswers ∧
      (Game.AcceptAnswers { st.game with sf := st.next }).next ≠ some Phase.GameEnding ∧
      (Game.AcceptAnswers { st.game with sf := st.next }).next = some Phase.Sustain :=
  ⟨rfl, rfl, _, rfl, rfl, rfl, by decide, rfl⟩

/-- C12, amended: when `Question` is evaluated with `countdownDone` set and
no players, it sets `wantAnswers = 0` and returns `AcceptAnswers`, and the
following evaluation of `AcceptAnswers` returns `Sustain` with
`acceptingAnswers = false`: the round closes at once as satisfied. -/
theorem AcceptAnswers_empty_round (game : Game)
    (hcd : game.state.countdownDone = true) (hpl : game.state.Players = []) :
    ∃ st, game.Question = some st ∧
      st.game.state.wantAnswers = 0 ∧
      st.game.state.gotAnswers = 0 ∧
      st.next = some Phase.AcceptAnswers ∧
      (Game.AcceptAnswers { st.game with sf := st.next }).next = some Phase.Sustain ∧
      (Game.AcceptAnswers { st.game with sf := st.next }).game.state.acceptingAnswers
        = false := by
  refine ⟨_, by unfold Game.Question; rw [if_pos hcd], ?_, rfl, rfl, ?_, ?_⟩
  · simp [hpl]
  · simp [Game.AcceptAnswers, hpl]
  · simp [Game.AcceptAnswers, hpl]

/-- Witness of C12 (amended) on the sample engine without players. -/
theorem AcceptAnswers_empty_round_witness :
    sampleNoPlayers.state.countdownDone = true ∧
    sampleNoPlayers.state.Players = [] ∧
    ∃ st, sampleNoPlayers.Question = some st ∧
      st.game.state.wantAnswers = 0 ∧
      st.game.state.gotAnswers = 0 ∧
      st.next = some Phase.AcceptAnswers ∧
      (Game.AcceptAnswers { st.game with sf := st.next }).next = some Phase.Sustain ∧
      (Game.AcceptAnswers { st.game with sf := st.next }).game.state.acceptingAnswers
        = false :=
  ⟨rfl, rfl, AcceptAnswers_empty_round sampleNoPlayers rfl rfl⟩

/-! ## Status and host -/

/-- No phase function breaks: a status other than `GameHostWaiting` comes with
an attached host. -/
theorem call_status_host (game : Game) (p : Phase) (st : Step) (h : game.call p = some st)
    (hinv : game.state.Status ≠ GameHostWaiting → game.state.Host ≠ none) :
    st.game.state.Status ≠ GameHostWaiting → st.game.state.Host ≠ none := by
  cases p <;> simp only [Game.call, Option.some.injEq] at h
  · subst h
    unfold Game.WaitForHost
    dsimp only
    split
    · rename_i hh; intro _; exact hh
    · intro hne; exact absurd rfl hne
  · unfold Game.Question at h
    split at h
    · simp only [Option.some.injEq] at h; subst h; exact hinv
    · split at h
      · exact absurd h (by simp)
      · simp only [Option.some.injEq] at h; subst h; exact hinv
  · subst h; unfold Game.AcceptAnswers; dsimp only; split <;> exact hinv
  · subst h; exact hinv
  · subst h; exact hinv
  · subst h; exact hinv

/-- Along the loop, under actions that leave the status alone and never detach
an attached host: while the driver is still in the loop its engine, and in
any case every snapshot served, has a host attached unless the status is
`GameHostWaiting`. -/
theorem loop_status_host (evs : List Event) :
    ∀ (game : Game) (tr : Trace),
      (∀ act, Event.action act ∈ evs → ∀ g : Game,
        (act.Perform g).state.Status = g.state.Status ∧
        (g.state.Host ≠ none → (act.Perform g).state.Host ≠ none)) →
      (game.state.Status ≠ GameHostWaiting → game.state.Host ≠ none) →
      (∀ rep ∈ tr.replies, rep.2.Status ≠ GameHostWaiting → rep.2.Host ≠ none) →
      ((Game.loop evs game tr).outcome = Outcome.blocked →
        (Game.loop evs game tr).game.state.Status ≠ GameHostWaiting →
        (Game.loop evs game tr).game.state.Host ≠ none) ∧
      ∀ rep ∈ (Game.loop evs game tr).trace.replies,
        rep.2.Status ≠ GameHostWaiting → rep.2.Host ≠ none := by
  induction evs with
  | nil =>
    intro game tr _ hg ht
    unfold Game.loop
    split
    · exact ⟨fun hb => absurd hb (by simp [Game.finish]), ht⟩
    · exact ⟨fun _ => hg, ht⟩
  | cons ev rest ih =>
    intro game tr hact hg ht
    unfold Game.loop
    split
    · exact ⟨fun hb => absurd hb (by simp [Game.finish]), ht⟩
    · split
      · exact ⟨fun hb => absurd hb (by simp [Game.finish]), ht⟩
      · rename_i g1 tr1 hsel
        have h1 : (g1.state.Status ≠ GameHostWaiting → g1.state.Host ≠ none) ∧
            ∀ rep ∈ tr1.replies, rep.2.Status ≠ GameHostWaiting → rep.2.Host ≠ none := by
          cases ev with
          | deadline => simp [Game.select] at hsel
          | action act =>
            simp only [Game.select, Option.some.injEq, Prod.mk.injEq] at hsel
            obtain ⟨hg1, htr1⟩ := hsel
            subst hg1 htr1
            have := hact act (List.mem_cons_self _ _) game
            exact ⟨fun hne => this.2 (hg (this.1 ▸ hne)), ht⟩
          | request req =>
            simp only [Game.select, Option.some.injEq, Prod.mk.injEq] at hsel
            obtain ⟨hg1, htr1⟩ := hsel
            subst hg1 htr1
            refine ⟨hg, ?_⟩
            intro rep hrep
            simp only [List.mem_append, List.mem_singleton] at hrep
            rcases hrep with hrep | hrep
            · exact ht rep hrep
            · subst hrep; exact hg
        split
        · exact ⟨fun hb => absurd hb (by simp [Game.finish]), h1.2⟩
        · rename_i st hpost
          have hst : st.game.state.Status ≠ GameHostWaiting → st.game.state.Host ≠ none := by
            unfold Game.post at hpost
            split at hpost
            · exact absurd hpost (by simp)
            · exact call_status_host g1 _ st hpost h1.1
          exact ih { st.game with sf := st.next } { tr1 with sent := tr1.sent ++ st.sent }
            (fun act hmem g => hact act (List.mem_cons_of_mem _ hmem) g) hst h1.2

/-- C13, counterexample: after a deadline exit of a fresh engine the status is
`GameDead`, not `GameHostWaiting`, and no host is attached; and during a run,
after a host attached and went away again, the status is `GameWaiting` with
no host attached. -/
theorem status_without_host :
    ((sampleNew.Run [Event.deadline]).outcome = Outcome.returned ∧
      (sampleNew.Run [Event.deadline]).game.state.Status = GameDead ∧
      (sampleNew.Run [Event.deadline]).game.state.Status ≠ GameHostWaiting ∧
      (sampleNew.Run [Event.deadline]).game.state.Host = none) ∧
    ((sampleNew.Run [Event.action (attachHost { id := 7 }),
        Event.action detachHost]).outcome = Outcome.blocked ∧
      (sampleNew.Run [Event.action (attachHost { id := 7 }),
        Event.action detachHost]).game.state.Status = GameWaiting ∧
      (sampleNew.Run [Event.action (attachHost { id := 7 }),
        Event.action detachHost]).game.state.Host = none) :=
  ⟨⟨rfl, rfl, by decide, rfl⟩, rfl, rfl, rfl⟩

/-- C13, amended: for a run from a freshly constructed engine whose actions
leave the status alone and never detach an attached host, in the state the
engine is in while `Run` is in its loop, and in every snapshot served, a
status other than `GameHostWaiting` comes with an attached host; once `Run`
has left its loop the status is `GameDead`, host or no host. -/
theorem status_needs_host (pin : Pin) (quiz : quiz.Quiz) (maxGameTime : Duration)
    (evs : List Event)
    (hact : ∀ act, Event.action act ∈ evs → ∀ g : Game,
      (act.Perform g).state.Status = g.state.Status ∧
      (g.state.Host ≠ none → (act.Perform g).state.Host ≠ none)) :
    (((NewGame pin quiz maxGameTime).Run evs).outcome = Outcome.blocked →
      ((NewGame pin quiz maxGameTime).Run evs).game.state.Status ≠ GameHostWaiting →
      ((NewGame pin quiz maxGameTime).Run evs).game.state.Host ≠ none) ∧
    (∀ rep ∈ ((NewGame pin quiz maxGameTime).Run evs).trace.replies,
      rep.2.Status ≠ GameHostWaiting → rep.2.Host ≠ none) ∧
    (((NewGame pin quiz maxGameTime).Run evs).outcome ≠ Outcome.blocked →
      ((NewGame pin quiz maxGameTime).Run evs).game.state.Status = GameDead) := by
  have h := loop_status_host evs
    { NewGame pin quiz maxGameTime with sf := some Phase.WaitForHost } Trace.empty hact
    (fun hne => absurd rfl hne) (by intro rep hrep; simp [Trace.empty] at hrep)
  exact ⟨h.1, h.2, fun hne => (loop_left evs _ _ hne).1⟩

/-- Witness of C13 (amended): a host attaches, a player joins and a snapshot
is read; the driver is in its loop with status `GameWaiting` and the host. -/
theorem status_needs_host_witness :
    ((NewGame 4242 sampleQuiz 0).Run
        [Event.action (attachHost { id := 7 }), Event.action (joinPlayer { id := 1 }),
          Event.request 9]).outcome = Outcome.blocked ∧
    ((NewGame 4242 sampleQuiz 0).Run
        [Event.action (attachHost { id := 7 }), Event.action (joinPlayer { id := 1 }),
          Event.request 9]).game.state.Status ≠ GameHostWaiting ∧
    ((NewGame 4242 sampleQuiz 0).Run
        [Event.action (attachHost { id := 7 }), Event.action (joinPlayer { id := 1 }),
          Event.request 9]).game.state.Host ≠ none :=
  ⟨rfl, by decide,
    (status_needs_host 4242 sampleQuiz 0
      [Event.action (attachHost { id := 7 }), Event.action (joinPlayer { id := 1 }),
        Event.request 9]
      (by
        intro act hmem g
        simp only [List.mem_cons, Event.action.injEq, List.mem_singleton, reduceCtorEq,
          or_false, List.not_mem_nil] at hmem
        rcases hmem with h | h <;> subst h
        · exact ⟨rfl, fun _ => by simp [attachHost]⟩
        · exact ⟨rfl, fun hh => hh⟩)).1 rfl (by decide)⟩

/-! ## Reads and sustaining -/

/-- The loop only ever appends to the replies it has sent. -/
theorem loop_replies (evs : List Event) :
    ∀ (game : Game) (tr : Trace),
      ∃ more, (Game.loop evs game tr).trace.replies = tr.replies ++ more := by
  induction evs with
  | nil =>
    intro game tr
    unfold Game.loop
    split <;> exact ⟨[], (List.append_nil _).symm⟩
  | cons ev rest ih =>
    intro game tr
    unfold Game.loop
    split
    · exact ⟨[], (List.append_nil _).symm⟩
    · split
      · exact ⟨[], (List.append_nil _).symm⟩
      · rename_i g1 tr1 hsel
        have h1 : ∃ more, tr1.replies = tr.replies ++ more := by
          cases ev with
          | deadline => simp [Game.select] at hsel
          | action act =>
            simp only [Game.select, Option.some.injEq, Prod.mk.injEq] at hsel
            exact ⟨[], by rw [← hsel.2, List.append_nil]⟩
          | request req =>
            simp only [Game.select, Option.some.injEq, Prod.mk.injEq] at hsel
            exact ⟨[(req, game.state)], by rw [← hsel.2]⟩
        obtain ⟨m1, hm1⟩ := h1
        split
        · exact ⟨m1, hm1⟩
        · rename_i st hpost
          obtain ⟨m2, hm2⟩ := ih { st.game with sf := st.next }
            { tr1 with sent := tr1.sent ++ st.sent }
          exact ⟨m1 ++ m2, by rw [hm2, ← List.append_assoc]; simp only [hm1]⟩

/-- C14: when the driver, waiting in its `select` after the events `pre`,
processes an action and the next event is a read request, then (the phase
evaluation after the action neither panicking nor returning nil, so that the
read is served) the snapshot delivered on the reply channel is the state
record obtained by performing the action and evaluating the then-current
phase once; it is the next reply after those already sent. -/
theorem read_after_action (game : Game) (pre rest : List Event) (act : Action) (req : Nat)
    (st : Step)
    (hpre : (game.Run pre).outcome = Outcome.blocked)
    (hpost : (act.Perform (game.Run pre).game).post = some st)
    (hnext : st.next ≠ none) :
    ∃ more,
      (game.Run (pre ++ Event.action act :: Event.request req :: rest)).trace.replies =
        (game.Run pre).trace.replies ++ (req, st.game.state) :: more := by
  unfold Game.Run at hpre hpost ⊢
  have hb := loop_blocked pre _ _ hpre
  rw [loop_append pre _ _ hpre]
  generalize Game.loop pre { game with sf := some Phase.WaitForHost } Trace.empty = r
    at hpost hb
  obtain ⟨hsf, _, _⟩ := hb
  rw [Game.loop.eq_def]
  simp only [hsf, if_false, Game.select, hpost]
  rw [Game.loop.eq_def]
  simp only [hnext, if_false, Game.select]
  split
  · exact ⟨[], by simp [Game.finish]⟩
  · rename_i st2 hpost2
    obtain ⟨more, hmore⟩ := loop_replies rest { st2.game with sf := st2.next }
      { reaped := r.trace.reaped,
        replies := r.trace.replies ++ [(req, st.game.state)],
        sent := r.trace.sent ++ st.sent ++ st2.sent,
        cancelled := r.trace.cancelled }
    exact ⟨more, by rw [hmore]; simp⟩

/-- Witness of C14: after a host attach the driver waits; a player joins, and
the read that follows is answered. -/
theorem read_after_action_witness :
    ∃ more,
      (sampleNew.Run ([Event.action (attachHost { id := 7 })] ++
          Event.action (joinPlayer { id := 1 }) :: Event.request 9 ::
            [Event.action (joinPlayer { id := 2 }), Event.request 10])).trace.replies =
        (sampleNew.Run [Event.action (attachHost { id := 7 })]).trace.replies ++
          (9, { Status := GameWaiting, Host := some { id := 7 }, Players := [{ id := 1 }],
                CurrentQuestion := 0, countdownDone := false, acceptingAnswers := false,
                wantAnswers := 0, gotAnswers := 0 }) :: more :=
  read_after_action sampleNew [Event.action (attachHost { id := 7 })]
    [Event.action (joinPlayer { id := 2 }), Event.request 10]
    (joinPlayer { id := 1 }) 9
    { game :=
        { PIN := 4242, Quiz := sampleQuiz, ctx := { timeout := MaxGameTime },
          state :=
            { Status := GameWaiting, Host := some { id := 7 }, Players := [{ id := 1 }],
              CurrentQuestion := 0, countdownDone := false, acceptingAnswers := false,
              wantAnswers := 0, gotAnswers := 0 },
          sf := some Phase.Sustain },
      next := some Phase.Sustain, sent := [] }
    rfl rfl (by decide)

/-- C15, counterexample: after `WaitForHost` returned `Sustain` (host
attached), the driver evaluates `Sustain` on the next event and is left with
`Sustain`, not with `WaitForHost`. -/
theorem Sustain_not_previous_phase :
    (sampleNew.Run [Event.action (attachHost { id := 7 })]).game.sf
      = some Phase.Sustain ∧
    (sampleNew.Run [Event.action (attachHost { id := 7 }), Event.request 9]).outcome
      = Outcome.blocked ∧
    (sampleNew.Run [Event.action (attachHost { id := 7 }), Event.request 9]).game.sf
      ≠ some Phase.WaitForHost ∧
    (sampleNew.Run [Event.action (attachHost { id := 7 }), Event.request 9]).game.sf
      = some Phase.Sustain :=
  ⟨rfl, rfl, by decide, rfl⟩

/-- C15, amended: when a phase `p` evaluated by the driver returns `Sustain`
and the driver evaluates `Sustain` on the next event, `Sustain` returns
`Sustain` itself, the value the driver stored in `game.sf`, not `p`, and
leaves the engine as `p` left it. -/
theorem Sustain_after_phase (game : Game) (tr : Trace) (p : Phase) (st : Step)
    (req1 req2 : Nat)
    (hsf : game.sf = some p) (hcall : game.call p = some st)
    (hnext : st.next = some Phase.Sustain) :
    Game.loop [Event.request req1, Event.request req2] game tr =
      { game := { st.game with sf := some Phase.Sustain }, outcome := Outcome.blocked,
        trace := { tr with
          replies := tr.replies ++ [(req1, game.state), (req2, st.game.state)]
          sent := tr.sent ++ st.sent },
        rest := [] } := by
  rw [Game.loop.eq_def]
  simp only [hsf, reduceCtorEq, if_false, Game.select, Game.post, hcall]
  rw [Game.loop.eq_def]
  simp only [hnext, reduceCtorEq, if_false, Game.select, Game.post, Game.call, Game.Sustain]
  simp [Game.loop]

/-- Witness of C15 (amended): `WaitForHost` with a host attached. -/
theorem Sustain_after_phase_witness :
    Game.loop [Event.request 1, Event.request 2]
        { sampleGame with sf := some Phase.WaitForHost } Trace.empty =
      { game :=
          { (Game.WaitForHost { sampleGame with sf := some Phase.WaitForHost }).game with
            sf := some Phase.Sustain },
        outcome := Outcome.blocked,
        trace := { Trace.empty with
          replies := Trace.empty.replies ++
            [(1, sampleGame.state),
              (2, (Game.WaitForHost
                { sampleGame with sf := some Phase.WaitForHost }).game.state)]
          sent := Trace.empty.sent ++
            (Game.WaitForHost { sampleGame with sf := some Phase.WaitForHost }).sent },
        rest := [] } :=
  Sustain_after_phase { sampleGame with sf := some Phase.WaitForHost } Trace.empty
    Phase.WaitForHost (Game.WaitForHost { sampleGame with sf := some Phase.WaitForHost })
    1 2 rfl rfl rfl

/-- C16: when the current phase is `Sustain`, evaluating it yields `Sustain`
and leaves the engine as it is; hence any number of read requests in a row
leaves the driver in its loop with the same engine, each request answered
with the same state record and nothing else produced. -/
theorem Sustain_stable (game : Game) (tr : Trace) (reqs : List Nat)
    (h : game.sf = some Phase.Sustain) :
    game.post = some { game := game, next := some Phase.Sustain, sent := [] } ∧
    Game.loop (reqs.map Event.request) game tr =
      { game := game, outcome := Outcome.blocked,
        trace := { tr with
          replies := tr.replies ++ reqs.map (fun req => (req, game.state)) },
        rest := [] } := by
  have hp : game.post = some { game := game, next := some Phase.Sustain, sent := [] } := by
    simp [Game.post, h, Game.call, Game.Sustain]
  refine ⟨hp, ?_⟩
  induction reqs generalizing tr with
  | nil =>
    simp [Game.loop, h]
  | cons req rest ih =>
    rw [List.map_cons, Game.loop.eq_def]
    simp only [h, reduceCtorEq, if_false, Game.select, hp]
    have hg : ({ game with sf := some Phase.Sustain } : Game) = game := by
      cases game; simp_all
    rw [hg, ih]
    simp

/-- Witness of C16: three reads while the sample engine sustains. -/
theorem Sustain_stable_witness :
    Game.loop ([1, 2, 3].map Event.request) { sampleGame with sf := some Phase.Sustain }
        Trace.empty =
      { game := { sampleGame with sf := some Phase.Sustain }, outcome := Outcome.blocked,
        trace := { Trace.empty with
          replies := Trace.empty.replies ++
            [1, 2, 3].map (fun req => (req, sampleGame.state)) },
        rest := [] } :=
  (Sustain_stable { sampleGame with sf := some Phase.Sustain } Trace.empty [1, 2, 3] rfl).2

/-! ## The round snapshot -/

/-- While the phase is `AcceptAnswers` or `Sustain`, a run whose actions touch
neither `wantAnswers` nor `game.sf` keeps `wantAnswers`. -/
theorem loop_wantAnswers (evs : List Event) :
    ∀ (game : Game) (tr : Trace),
      (∀ act, Event.action act ∈ evs → ∀ g : Game,
        (act.Perform g).state.wantAnswers = g.state.wantAnswers ∧
        (act.Perform g).sf = g.sf) →
      (game.sf = some Phase.AcceptAnswers ∨ game.sf = some Phase.Sustain) →
      (Game.loop evs game tr).game.state.wantAnswers = game.state.wantAnswers := by
  induction evs with
  | nil =>
    intro game tr _ _
    unfold Game.loop
    split <;> rfl
  | cons ev rest ih =>
    intro game tr hact hsf
    unfold Game.loop
    split
    · rfl
    · split
      · rfl
      · rename_i g1 tr1 hsel
        have h1 : g1.state.wantAnswers = game.state.wantAnswers ∧ g1.sf = game.sf := by
          cases ev with
          | deadline => simp [Game.select] at hsel
          | action act =>
            simp only [Game.select, Option.some.injEq, Prod.mk.injEq] at hsel
            rw [← hsel.1]
            exact hact act (List.mem_cons_self _ _) game
          | request req =>
            simp only [Game.select, Option.some.injEq, Prod.mk.injEq] at hsel
            rw [← hsel.1]
            exact ⟨rfl, rfl⟩
        split
        · exact h1.1
        · rename_i st hpost
          have hst : st.game.state.wantAnswers = g1.state.wantAnswers ∧
              (st.next = some Phase.AcceptAnswers ∨ st.next = some Phase.Sustain) := by
            unfold Game.post at hpost
            rw [h1.2] at hpost
            rcases hsf with hsf | hsf
            · rw [hsf] at hpost
              simp only [Game.call, Option.some.injEq] at hpost
              subst hpost
              unfold Game.AcceptAnswers
              dsimp only
              split
              · exact ⟨rfl, Or.inr rfl⟩
              · exact ⟨rfl, Or.inl rfl⟩
            · rw [hsf] at hpost
              simp only [Game.call, Option.some.injEq] at hpost
              subst hpost
              exact ⟨rfl, Or.inr (h1.2.trans hsf)⟩
          rw [ih { st.game with sf := st.next } { tr1 with sent := tr1.sent ++ st.sent }
            (fun act hmem g => hact act (List.mem_cons_of_mem _ hmem) g) hst.2]
          exact hst.1.trans h1.1

/-- C17: once `Question` (with `countdownDone` set) has taken the snapshot,
`wantAnswers` stays the number of players present at that moment: through any
sequence of rewrites of the players sequence each followed by an evaluation of
`AcceptAnswers`, and through any further run of the driver whose actions touch
neither `wantAnswers` nor the current phase. -/
theorem round_players_frozen (game : Game) (hcd : game.state.countdownDone = true) :
    ∃ st, game.Question = some st ∧
      st.game.state.wantAnswers = (game.state.Players.length : Int) ∧
      (∀ fs : List (List Player → List Player),
        (fs.foldl (fun g f => (Game.AcceptAnswers ((changePlayers f).Perform g)).game)
          st.game).state.wantAnswers = (game.state.Players.length : Int)) ∧
      (∀ (evs : List Event) (tr : Trace),
        (∀ act, Event.action act ∈ evs → ∀ g : Game,
          (act.Perform g).state.wantAnswers = g.state.wantAnswers ∧
          (act.Perform g).sf = g.sf) →
        (Game.loop evs { st.game with sf := st.next } tr).game.state.wantAnswers =
          (game.state.Players.length : Int)) := by
  have hfold : ∀ (fs : List (List Player → List Player)) (g : Game),
      (fs.foldl (fun g f => (Game.AcceptAnswers ((changePlayers f).Perform g)).game)
        g).state.wantAnswers = g.state.wantAnswers := by
    intro fs
    induction fs with
    | nil => intro g; rfl
    | cons f rest ih =>
      intro g
      rw [List.foldl_cons, ih]
      unfold Game.AcceptAnswers
      dsimp only
      split <;> rfl
  refine ⟨_, by unfold Game.Question; rw [if_pos hcd], rfl, ?_, ?_⟩
  · intro fs
    rw [hfold]
  · intro evs tr hact
    rw [loop_wantAnswers evs _ tr hact (Or.inl rfl)]

/-- Witness of C17: the sample engine takes its snapshot with three players;
two more join and one list is cleared, `AcceptAnswers` running each time. -/
theorem round_players_frozen_witness :
    sampleCountdownDone.state.countdownDone = true ∧
    ∃ st, sampleCountdownDone.Question = some st ∧
      st.game.state.wantAnswers = 3 ∧
      ([fun ps => ps ++ [{ id := 4 }], fun ps => ps ++ [{ id := 5 }], fun _ => []].foldl
          (fun g f => (Game.AcceptAnswers ((changePlayers f).Perform g)).game)
          st.game).state.wantAnswers = 3 ∧
      (Game.loop [Event.action (joinPlayer { id := 4 }), Event.request 9]
          { st.game with sf := st.next } Trace.empty).game.state.wantAnswers = 3 := by
  obtain ⟨st, hst, hw, hf, hl⟩ := round_players_frozen sampleCountdownDone rfl
  refine ⟨rfl, st, hst, hw, hf _, hl _ _ ?_⟩
  intro act hmem g
  simp only [List.mem_cons, Event.action.injEq, List.mem_singleton, reduceCtorEq,
    or_false, List.not_mem_nil] at hmem
  subst hmem
  exact ⟨rfl, rfl⟩

/-! ## Status in a round -/

/-- C18, counterexample: a fresh engine whose host attached and which an action
routed to `Question` has evaluated `Question` and is in its loop with phase
`Question` and status `GameWaiting`, not `GameRunning`. -/
theorem Question_status_not_running :
    (sampleNew.Run [Event.action (attachHost { id := 7 }),
        Event.action (routeTo (some Phase.Question))]).outcome = Outcome.blocked ∧
    (sampleNew.Run [Event.action (attachHost { id := 7 }),
        Event.action (routeTo (some Phase.Question))]).game.sf = some Phase.Question ∧
    (sampleNew.Run [Event.action (attachHost { id := 7 }),
        Event.action (routeTo (some Phase.Question))]).game.state.Status = GameWaiting ∧
    (sampleNew.Run [Event.action (attachHost { id := 7 }),
        Event.action (routeTo (some Phase.Question))]).game.state.Status ≠ GameRunning :=
  ⟨rfl, rfl, rfl, by decide⟩

/-- C18, amended: no phase function sets the status to `GameRunning`:
`Question` and `AcceptAnswers` leave the status as it was, and after the
evaluation of any phase the status is `GameRunning` only if it was before. -/
theorem phases_keep_status (game : Game) :
    (∀ st, game.Question = some st → st.game.state.Status = game.state.Status) ∧
    game.AcceptAnswers.game.state.Status = game.state.Status ∧
    (∀ p st, game.call p = some st →
      st.game.state.Status = GameRunning → game.state.Status = GameRunning) := by
  have hq : ∀ st, game.Question = some st → st.game.state.Status = game.state.Status := by
    intro st h
    unfold Game.Question at h
    split at h
    · simp only [Option.some.injEq] at h; subst h; rfl
    · split at h
      · exact absurd h (by simp)
      · simp only [Option.some.injEq] at h; subst h; rfl
  have ha : game.AcceptAnswers.game.state.Status = game.state.Status := by
    unfold Game.AcceptAnswers
    dsimp only
    split <;> rfl
  refine ⟨hq, ha, ?_⟩
  intro p st h hr
  cases p <;> simp only [Game.call, Option.some.injEq] at h
  · subst h
    unfold Game.WaitForHost at hr
    dsimp only at hr
    split at hr
    · exact absurd (show (GameWaiting : Status) = GameRunning from hr) (by decide)
    · exact absurd (show (GameHostWaiting : Status) = GameRunning from hr) (by decide)
  · rw [← hq st h]; exact hr
  · subst h; rw [← ha]; exact hr
  · subst h; exact hr
  · subst h; exact hr
  · subst h; exact hr

/-- Witness of C18 (amended): on the sample engine, whose status is
`GameRunning`, `Question` keeps the status, and so does the phase called as
`game.sf`. -/
theorem phases_keep_status_witness :
    (∃ st, sampleGame.Question = some st ∧ st.game.state.Status = GameRunning) ∧
    sampleGame.AcceptAnswers.game.state.Status = GameRunning ∧
    sampleGame.state.Status = GameRunning :=
  ⟨⟨_, rfl, (phases_keep_status sampleGame).1 _ rfl⟩,
    (phases_keep_status sampleGame).2.1,
    (phases_keep_status sampleGame).2.2 Phase.Sustain sampleGame.Sustain rfl rfl⟩

/-! ## The question lookup -/

/-- C20: `Question` fails exactly when `countdownDone` is unset and the current
question index is out of range, and the lookup itself fails exactly on an index
out of range: with the index in range `Question` never fails, and with
`countdownDone` set it does not fail for any index and any quiz. -/
theorem Question_lookup_total (game : Game) :
    (game.Question = none ↔
      game.state.countdownDone = false ∧
        ¬ (0 ≤ game.state.CurrentQuestion ∧
          game.state.CurrentQuestion < (game.Quiz.Questions.length : Int))) ∧
    (index game.Quiz.Questions game.state.CurrentQuestion = none ↔
      ¬ (0 ≤ game.state.CurrentQuestion ∧
        game.state.CurrentQuestion < (game.Quiz.Questions.length : Int))) := by
  have hidx : index game.Quiz.Questions game.state.CurrentQuestion = none ↔
      ¬ (0 ≤ game.state.CurrentQuestion ∧
        game.state.CurrentQuestion < (game.Quiz.Questions.length : Int)) := by
    unfold index
    split
    · constructor
      · intro _ h; omega
      · intro _; rfl
    · rw [List.getElem?_eq_none_iff]
      constructor
      · intro h1 h2; omega
      · intro h; omega
  refine ⟨?_, hidx⟩
  unfold Game.Question
  cases hcd : game.state.countdownDone
  · simp only [Bool.false_eq_true, if_false, true_and]
    rw [← hidx]
    cases index game.Quiz.Questions game.state.CurrentQuestion <;> simp
  · simp

/-! ## Re-entering the question phase -/

/-- With `countdownDone` unset and the index in range, `Question` leaves the
engine as it is, returns `game.sf`, and dispatches the question to the host
and the count to each player. -/
theorem Question_open (game : Game)
    (hcd : game.state.countdownDone = false)
    (hlo : 0 ≤ game.state.CurrentQuestion)
    (hhi : game.state.CurrentQuestion < (game.Quiz.Questions.length : Int)) :
    ∃ qn, game.Question = some
      { game := game, next := game.sf,
        sent := Message.mk (Recipient.host game.state.Host) Command.CommandNewQuestion
            (Payload.newQuestion qn (game.state.CurrentQuestion + 1)
              (game.Quiz.Questions.length : Int)) ::
          game.state.Players.map
            (fun plr => Message.mk (Recipient.player plr) Command.CommandQuestionCount
              (Payload.count 10)) } := by
  have hlt : game.state.CurrentQuestion.toNat < game.Quiz.Questions.length := by omega
  refine ⟨game.Quiz.Questions[game.state.CurrentQuestion.toNat], ?_⟩
  unfold Game.Question
  simp only [hcd, Bool.false_eq_true, if_false, index, not_lt.mpr hlo,
    List.getElem?_eq_getElem hlt]

/-- C19, counterexample: with the phase `Question`, `countdownDone` unset and
the question index out of range, a driver iteration triggered by a read does
not re-enter `Question`: the lookup panics, `Run` is left, and no message was
dispatched. -/
theorem Question_reentry_panics :
    sampleOutOfRange.sf = some Phase.Question ∧
    sampleOutOfRange.state.countdownDone = false ∧
    (Game.loop [Event.request 9] sampleOutOfRange Trace.empty).outcome = Outcome.panicked ∧
    (Game.loop [Event.request 9] sampleOutOfRange Trace.empty).trace.sent = [] ∧
    (Game.loop [Event.request 9] sampleOutOfRange Trace.empty).game.state
      ≠ sampleOutOfRange.state :=
  ⟨rfl, rfl, rfl, rfl, by decide⟩

/-- C19, amended: while the phase is `Question`, `countdownDone` is unset and
the question index is in range, every driver iteration, triggered by a read or
by an action that leaves phase, flag, quiz and index untouched, re-enters
`Question` and dispatches the messages again: after `k` such iterations the
driver is still in its loop in `Question`, `k` more `CommandNewQuestion`
messages went to the host, and when the actions leave the state record alone
it is unchanged and `k * len(Players)` more `CommandQuestionCount` messages
went out. -/
theorem Question_reenters (evs : List Event) (game : Game) (tr : Trace)
    (hsf : game.sf = some Phase.Question)
    (hcd : game.state.countdownDone = false)
    (hlo : 0 ≤ game.state.CurrentQuestion)
    (hhi : game.state.CurrentQuestion < (game.Quiz.Questions.length : Int))
    (hdl : Event.deadline ∉ evs)
    (hact : ∀ act, Event.action act ∈ evs → ∀ g : Game,
      (act.Perform g).sf = g.sf ∧ (act.Perform g).Quiz = g.Quiz ∧
      (act.Perform g).state.countdownDone = g.state.countdownDone ∧
      (act.Perform g).state.CurrentQuestion = g.state.CurrentQuestion) :
    (Game.loop evs game tr).outcome = Outcome.blocked ∧
    (Game.loop evs game tr).game.sf = some Phase.Question ∧
    (Game.loop evs game tr).game.state.countdownDone = false ∧
    ((Game.loop evs game tr).trace.sent.filter
        (fun m => decide (m.cmd = Command.CommandNewQuestion))).length =
      (tr.sent.filter (fun m => decide (m.cmd = Command.CommandNewQuestion))).length
        + evs.length ∧
    ((Game.loop evs game tr).trace.sent.filter Message.hostBound).length =
      (tr.sent.filter Message.hostBound).length + evs.length ∧
    ((∀ act, Event.action act ∈ evs → ∀ g : Game, (act.Perform g).state = g.state) →
      (Game.loop evs game tr).game.state = game.state ∧
      ((Game.loop evs game tr).trace.sent.filter
          (fun m => decide (m.cmd = Command.CommandQuestionCount))).length =
        (tr.sent.filter (fun m => decide (m.cmd = Command.CommandQuestionCount))).length
          + evs.length * game.state.Players.length) := by
  induction evs generalizing game tr with
  | nil =>
    simp [Game.loop, hsf, hcd]
  | cons ev rest ih =>
    have hsel : ∃ g1 tr1, game.select tr ev = some (g1, tr1) ∧ tr1.sent = tr.sent ∧
        g1.sf = some Phase.Question ∧ g1.state.countdownDone = false ∧
        0 ≤ g1.state.CurrentQuestion ∧
        g1.state.CurrentQuestion < (g1.Quiz.Questions.length : Int) ∧
        ((∀ act, Event.action act ∈ ev :: rest → ∀ g : Game, (act.Perform g).state = g.state) →
          g1.state = game.state) := by
      cases ev with
      | deadline => exact absurd (List.mem_cons_self _ _) hdl
      | action act =>
        have h := hact act (List.mem_cons_self _ _) game
        refine ⟨act.Perform game, tr, rfl, rfl, h.1.trans hsf, h.2.2.1.trans hcd, ?_, ?_, ?_⟩
        · rw [h.2.2.2]; exact hlo
        · rw [h.2.2.2, h.2.1]; exact hhi
        · intro hs; exact hs act (List.mem_cons_self _ _) game
      | request req =>
        exact ⟨game, _, rfl, rfl, hsf, hcd, hlo, hhi, fun _ => rfl⟩
    obtain ⟨g1, tr1, hs, htr1, hsf1, hcd1, hlo1, hhi1, hst1⟩ := hsel
    obtain ⟨qn, hq⟩ := Question_open g1 hcd1 hlo1 hhi1
    have hpost : g1.post = some
        { game := g1, next := g1.sf,
          sent := Message.mk (Recipient.host g1.state.Host) Command.CommandNewQuestion
              (Payload.newQuestion qn (g1.state.CurrentQuestion + 1)
                (g1.Quiz.Questions.length : Int)) ::
            g1.state.Players.map
              (fun plr => Message.mk (Recipient.player plr) Command.CommandQuestionCount
                (Payload.count 10)) } := by
      unfold Game.post
      simp only [hsf1, Game.call]
      rw [hq, hsf1]
    have hg1 : ({ g1 with sf := g1.sf } : Game) = g1 := by cases g1; rfl
    rw [Game.loop.eq_def]
    simp only [hsf, reduceCtorEq, if_false, hs, hpost, hg1]
    have hrec := ih g1
      { tr1 with sent := tr1.sent ++
          (Message.mk (Recipient.host g1.state.Host) Command.CommandNewQuestion
              (Payload.newQuestion qn (g1.state.CurrentQuestion + 1)
                (g1.Quiz.Questions.length : Int)) ::
            g1.state.Players.map
              (fun plr => Message.mk (Recipient.player plr) Command.CommandQuestionCount
                (Payload.count 10))) }
      hsf1 hcd1 hlo1 hhi1
      (fun hmem => hdl (List.mem_cons_of_mem _ hmem))
      (fun act hmem g => hact act (List.mem_cons_of_mem _ hmem) g)
    obtain ⟨h1, h2, h3, h4, h5, h6⟩ := hrec
    refine ⟨h1, h2, h3, ?_, ?_, ?_⟩
    · rw [h4, htr1]
      simp [List.filter_cons, List.filter_map, Function.comp_def]
      omega
    · rw [h5, htr1]
      simp [List.filter_cons, List.filter_map, Function.comp_def, Message.hostBound]
      omega
    · intro hs'
      have hg := hst1 hs'
      obtain ⟨h7, h8⟩ := h6 (fun act hmem g => hs' act (List.mem_cons_of_mem _ hmem) g)
      refine ⟨h7.trans hg, ?_⟩
      rw [h8, htr1, hg]
      simp [List.filter_cons, List.filter_map, Function.comp_def]
      ring

/-- Witness of C19 (amended): two reads and a no-op action on the sample engine
with three players. -/
theorem Question_reenters_witness :
    (Game.loop [Event.request 1, Event.action noop, Event.request 2]
        sampleGame Trace.empty).outcome = Outcome.blocked ∧
    (Game.loop [Event.request 1, Event.action noop, Event.request 2]
        sampleGame Trace.empty).game.sf = some Phase.Question ∧
    ((Game.loop [Event.request 1, Event.action noop, Event.request 2]
        sampleGame Trace.empty).trace.sent.filter
          (fun m => decide (m.cmd = Command.CommandNewQuestion))).length = 3 ∧
    (Game.loop [Event.request 1, Event.action noop, Event.request 2]
        sampleGame Trace.empty).game.state = sampleGame.state ∧
    ((Game.loop [Event.request 1, Event.action noop, Event.request 2]
        sampleGame Trace.empty).trace.sent.filter
          (fun m => decide (m.cmd = Command.CommandQuestionCount))).length = 9 :=
  have h := Question_reenters [Event.request 1, Event.action noop, Event.request 2]
    sampleGame Trace.empty rfl rfl (by decide) (by decide) (by simp)
    (by
      intro act hmem g
      simp only [List.mem_cons, Event.action.injEq, List.mem_singleton, reduceCtorEq,
        or_false, false_or, List.not_mem_nil] at hmem
      subst hmem
      exact ⟨rfl, rfl, rfl, rfl⟩)
  have h2 := h.2.2.2.2.2
    (by
      intro act hmem g
      simp only [List.mem_cons, Event.action.injEq, List.mem_singleton, reduceCtorEq,
        or_false, false_or, List.not_mem_nil] at hmem
      subst hmem
      rfl)
  ⟨h.1, h.2.1, h.2.2.2.1, h2.1, h2.2⟩

end game
